import Mathlib

/-!
Verification of the task-positioning ("Position Ledger") behaviour of the
Express/SQLite task-management backend.  The repository stores rows of the
`Task` table as a list of records; each `TaskRepository` method from
`src/models/Task.js` is translated into a pure function on that list, with
the SQL statements it issues modelled statement by statement:

* `SELECT * FROM Task WHERE id = ?`                  → `List.find?`
* `DELETE FROM Task WHERE id = ?`                    → `List.filter`
* `UPDATE Task SET position = ? WHERE id = ?`        → `setPos`
* bulk `UPDATE ... WHERE board_id = ? AND ...`       → `List.map` with the guard
* `SELECT ... WHERE board_id = ? ORDER BY position`  → `sortByPos ∘ boardTasks`
* `SELECT COALESCE(MAX(position),0) ...`             → `maxPosCoalesce`

`lastID` (SQLite autoincrement) is modelled by `nextId`, one past the largest
id in the table.  The HTTP controller for `PUT /:id/reorder-position`
(`TaskController.reorderByPosition` in `src/controllers/taskController.js`)
is modelled over a small JavaScript-value type, because its behaviour hinges
on `Number.isInteger` being applied to a path parameter that is a string.
-/

set_option maxHeartbeats 1000000

/-- One row of the `Task` table. -/
structure DBTask where
  id : Int
  title : String
  position : Int
  board_id : Int
deriving DecidableEq

/-- The `Task` table: a list of rows. -/
abbrev DB := List DBTask

/-- `UPDATE Task SET position = p WHERE id = i`. -/
def setPos (db : DB) (i : Int) (p : Int) : DB :=
  db.map (fun t => if t.id = i then { t with position := p } else t)

/-- `SELECT * FROM Task WHERE board_id = b` (row order as stored). -/
def boardTasks (b : Int) (db : DB) : List DBTask :=
  db.filter (fun t => t.board_id = b)

/-- The positions of the rows of board `b`. -/
def posList (b : Int) (db : DB) : List Int :=
  (boardTasks b db).map (fun t => t.position)

/-- The list `[0, 1, ..., n-1]` as integers. -/
def rangeZ (n : Nat) : List Int :=
  (List.range n).map (Nat.cast : Nat → Int)

/-- Density invariant for board `b`: the positions of its rows are exactly
`{0, ..., n-1}` where `n` is the row count (as a multiset, which for an
`n`-element collection is equivalent to the set formulation in the spec). -/
def DenseBoard (b : Int) (db : DB) : Prop :=
  ((posList b db : Multiset Int) = (rangeZ (boardTasks b db).length : Multiset Int))

instance (b : Int) (db : DB) : Decidable (DenseBoard b db) := by
  unfold DenseBoard; infer_instance

/-- Well-formedness provided by the store: row ids are distinct. -/
def UniqueIds (db : DB) : Prop :=
  (db.map (fun t => t.id)).Nodup

instance (db : DB) : Decidable (UniqueIds db) := by
  unfold UniqueIds; infer_instance

/-- SQLite `lastID` after an `INSERT`: modelled as one past the largest id. -/
def nextId (db : DB) : Int :=
  (db.map (fun t => t.id)).foldl max 0 + 1

/-- `SELECT COALESCE(MAX(position), 0) FROM Task WHERE board_id = b`. -/
def maxPosCoalesce (b : Int) (db : DB) : Int :=
  match posList b db with
  | [] => 0
  | p :: ps => ps.foldl max p

/-- JavaScript `String.prototype.trim`, modelled over the string's character
list (drop whitespace from both ends). -/
def jsTrim (s : String) : String :=
  String.mk (((s.data.dropWhile Char.isWhitespace).reverse.dropWhile
    Char.isWhitespace).reverse)

/-- Comparison used to model `ORDER BY position ASC`. -/
def posLe (a b : DBTask) : Prop := a.position ≤ b.position

instance : DecidableRel posLe := fun a b => inferInstanceAs (Decidable (a.position ≤ b.position))

instance : IsTotal DBTask posLe := ⟨fun a b => le_total a.position b.position⟩

instance : IsTrans DBTask posLe := ⟨fun _ _ _ h1 h2 => le_trans h1 h2⟩

/-- `ORDER BY position ASC` (SQLite leaves ties unordered; insertion sort
fixes one such order). -/
def sortByPos (l : List DBTask) : List DBTask :=
  l.insertionSort posLe

/-- The sequential `rows.forEach((row, index) => UPDATE ... position = index + 1 ...)`
loop of `moveToBoard`, generalised to a starting value `k` (the source uses
`k = 1`). -/
def assignSeq (db : DB) (rows : List DBTask) (k : Int) : DB :=
  match rows with
  | [] => db
  | r :: rs => assignSeq (setPos db r.id k) rs (k + 1)

namespace TaskRepository

/-- `TaskRepository.create` (Task.js lines 142-171): after the falsy-argument
check and `task.validate()`, it runs a single
`INSERT INTO Task (title, position, board_id) VALUES (?, ?, ?)` with the raw
constructor values — nothing else is read or written, and the stored title is
`data.title` exactly as passed (the `Task` constructor does not trim). -/
def create (db : DB) (title : String) (position : Int) (board_id : Int) :
    Except String (DB × DBTask) :=
  if title = "" ∨ board_id = 0 then
    Except.error "title, position, and board_id are required"
  else if jsTrim title = "" ∨ position < 0 ∨ board_id ≤ 0 then
    Except.error "Invalid task data"
  else
    let t : DBTask := ⟨nextId db, title, position, board_id⟩
    Except.ok (db ++ [t], t)

/-- `TaskRepository.delete` (Task.js lines 271-279): a single
`DELETE FROM Task WHERE id = ?` and nothing else. -/
def delete (db : DB) (id : Int) : DB :=
  db.filter (fun t => ¬ t.id = id)

/-- `TaskRepository.reorder` (Task.js lines 287-334): fetch both rows, then
set row 1's position to row 2's and row 2's to row 1's old value. -/
def reorder (db : DB) (taskId1 taskId2 : Int) : Except String DB :=
  if taskId1 = 0 ∨ taskId2 = 0 then
    Except.error "Both task IDs are required"
  else
    match db.find? (fun t => t.id = taskId1) with
    | none => Except.error "Task 1 not found"
    | some task1 =>
      match db.find? (fun t => t.id = taskId2) with
      | none => Except.error "Task 2 not found"
      | some task2 =>
        Except.ok (setPos (setPos db taskId1 task2.position) taskId2 task1.position)

/-- `TaskRepository.reorderByPosition` (Task.js lines 342-404): fetch the row;
no-op when the position is unchanged; otherwise shift the intervening range of
its board by ±1 and set the row's position.  Note that the repository has no
range check on `newPosition` beyond `=== undefined`. -/
def reorderByPosition (db : DB) (taskId : Int) (newPosition : Int) :
    Except String DB :=
  if taskId = 0 then
    Except.error "Task ID and new position are required"
  else
    match db.find? (fun t => t.id = taskId) with
    | none => Except.error "Task not found"
    | some task =>
      if task.position = newPosition then
        Except.ok db
      else if newPosition < task.position then
        Except.ok (setPos
          (db.map (fun t =>
            if t.board_id = task.board_id ∧ newPosition ≤ t.position ∧
                t.position < task.position
            then { t with position := t.position + 1 } else t))
          taskId newPosition)
      else
        Except.ok (setPos
          (db.map (fun t =>
            if t.board_id = task.board_id ∧ task.position < t.position ∧
                t.position ≤ newPosition
            then { t with position := t.position - 1 } else t))
          taskId newPosition)

/-- `TaskRepository.moveToBoard` (Task.js lines 413-560): fetch the row, reject
a same-board move, pick the final position (the explicit `newPosition`, or
`COALESCE(MAX(position),0) + 1` over the target board when omitted), update the
row, then renumber the old board's remaining rows — ordered by position — to
`1, 2, ..., k` via `index + 1`.  The dead `positionToUse` constant at lines
435-445 issues a read whose callback result is discarded, so it has no state
effect and is not modelled. -/
def moveToBoard (db : DB) (taskId newBoardId : Int) (newPosition : Option Int) :
    Except String (DB × DBTask) :=
  if taskId = 0 ∨ newBoardId = 0 then
    Except.error "Task ID and new board ID are required"
  else
    match db.find? (fun t => t.id = taskId) with
    | none => Except.error "Task not found"
    | some task =>
      if task.board_id = newBoardId then
        Except.error "Task is already in this board"
      else
        let finalPosition :=
          match newPosition with
          | some p => p
          | none => maxPosCoalesce newBoardId db + 1
        let db1 := db.map (fun t =>
          if t.id = taskId then
            { t with board_id := newBoardId, position := finalPosition }
          else t)
        let rows := sortByPos (boardTasks task.board_id db1)
        let db2 := if rows = [] then db1 else assignSeq db1 rows 1
        Except.ok (db2, ⟨task.id, task.title, finalPosition, newBoardId⟩)

end TaskRepository

instance {ε α : Type} [DecidableEq ε] [DecidableEq α] : DecidableEq (Except ε α) :=
  fun a b =>
  match a, b with
  | Except.error e1, Except.error e2 =>
    if h : e1 = e2 then isTrue (by rw [h]) else isFalse (by intro hc; cases hc; exact h rfl)
  | Except.error _, Except.ok _ => isFalse (by intro hc; cases hc)
  | Except.ok _, Except.error _ => isFalse (by intro hc; cases hc)
  | Except.ok v1, Except.ok v2 =>
    if h : v1 = v2 then isTrue (by rw [h]) else isFalse (by intro hc; cases hc; exact h rfl)

/-- JavaScript values as far as the controller's checks can distinguish them:
`undefined`, booleans, integer numbers, non-integer (finite) numbers, strings,
and everything else (objects, arrays, ...). -/
inductive JsValue where
  | undef : JsValue
  | boolean : Bool → JsValue
  | int : Int → JsValue
  | nonIntNum : JsValue
  | str : String → JsValue
  | objOrOther : JsValue
deriving DecidableEq

/-- `Number.isInteger`: true exactly on integer numbers (never on strings). -/
def isIntegerJs : JsValue → Bool
  | JsValue.int _ => true
  | _ => false

/-- JavaScript truthiness as used by the controller guards. -/
def truthy : JsValue → Bool
  | JsValue.undef => false
  | JsValue.boolean b => b
  | JsValue.int i => decide (i ≠ 0)
  | JsValue.nonIntNum => true
  | JsValue.str s => decide (s ≠ "")
  | JsValue.objOrOther => true

/-- Numeric value of a `JsValue` once `isIntegerJs` has been checked. -/
def jsInt : JsValue → Int
  | JsValue.int i => i
  | _ => 0

/-- Outcome of the `reorderByPosition` HTTP handler: either it sends an error
response before touching the repository, or it invokes
`TaskRepository.reorderByPosition` (whose result it then maps to a response). -/
inductive RPOutcome where
  | rejected : Nat → String → RPOutcome
  | repoCalled : Except String DB → RPOutcome
deriving DecidableEq

/-- `TaskController.reorderByPosition` (taskController.js lines 149-181):
guards in source order — presence (`!id || newPosition === undefined`), then
`Number.isInteger` on both, then non-negativity — and only then the repository
call.  The route `PUT /:id/reorder-position` always supplies `id` as the path
parameter, hence as a string. -/
def ctrlReorderByPosition (db : DB) (id : JsValue) (newPosition : JsValue) :
    RPOutcome :=
  if truthy id = false ∨ newPosition = JsValue.undef then
    RPOutcome.rejected 400 "Task ID dan newPosition harus disediakan"
  else if isIntegerJs id = false ∨ isIntegerJs newPosition = false then
    RPOutcome.rejected 400 "Task ID dan newPosition harus berupa angka"
  else if jsInt newPosition < 0 then
    RPOutcome.rejected 400 "newPosition harus non-negatif"
  else
    RPOutcome.repoCalled
      (TaskRepository.reorderByPosition db (jsInt id) (jsInt newPosition))

/-- Combined effect on one row of `reorder`'s two `UPDATE`s (`p1`, `p2` are
the two fetched positions; row `id1` receives `p2`, then row `id2` receives
`p1`). -/
def swapFun (id1 id2 p1 p2 : Int) (t : DBTask) : DBTask :=
  let u := if t.id = id1 then { t with position := p2 } else t
  if u.id = id2 then { u with position := p1 } else u

/-- Combined effect on one row of `reorderByPosition`'s moving-up branch. -/
def shiftUpFun (B old new taskId : Int) (t : DBTask) : DBTask :=
  let u := if t.board_id = B ∧ new ≤ t.position ∧ t.position < old then
    { t with position := t.position + 1 } else t
  if u.id = taskId then { u with position := new } else u

/-- Combined effect on one row of `reorderByPosition`'s moving-down branch. -/
def shiftDownFun (B old new taskId : Int) (t : DBTask) : DBTask :=
  let u := if t.board_id = B ∧ old < t.position ∧ t.position ≤ new then
    { t with position := t.position - 1 } else t
  if u.id = taskId then { u with position := new } else u

/-- Effect on one row of `moveToBoard`'s board-and-position `UPDATE`. -/
def moveOutFun (taskId newBoardId fp : Int) (t : DBTask) : DBTask :=
  if t.id = taskId then { t with board_id := newBoardId, position := fp } else t

/-! ### General lemmas about `rangeZ` and permutations of it -/

theorem length_rangeZ (n : Nat) : (rangeZ n).length = n := by
  unfold rangeZ; simp

theorem mem_rangeZ {p : Int} {n : Nat} : p ∈ rangeZ n ↔ 0 ≤ p ∧ p < n := by
  unfold rangeZ
  simp only [List.mem_map, List.mem_range]
  constructor
  · rintro ⟨i, hi, rfl⟩
    omega
  · intro h
    refine ⟨p.toNat, ?_, ?_⟩ <;> omega

theorem nodup_rangeZ (n : Nat) : (rangeZ n).Nodup := by
  unfold rangeZ
  exact List.Nodup.map Nat.cast_injective (List.nodup_range n)

theorem list_toFinset_map {α β : Type} [DecidableEq α] [DecidableEq β]
    (l : List α) (f : α → β) : (l.map f).toFinset = l.toFinset.image f := by
  induction l with
  | nil => simp
  | cons a as ih => simp [ih]

/-- A self-map of `{0, ..., n-1}` with a left inverse permutes `rangeZ n`. -/
theorem perm_map_range (n : Nat) (f g : Int → Int)
    (hcl : ∀ p : Int, 0 ≤ p → p < n → 0 ≤ f p ∧ f p < n)
    (hgf : ∀ p : Int, 0 ≤ p → p < n → g (f p) = p) :
    ((rangeZ n).map f).Perm (rangeZ n) := by
  have hnd : (rangeZ n).Nodup := nodup_rangeZ n
  have hinj : ∀ x ∈ rangeZ n, ∀ y ∈ rangeZ n, f x = f y → x = y := by
    intro x hx y hy hxy
    have hx2 := mem_rangeZ.mp hx
    have hy2 := mem_rangeZ.mp hy
    have h1 := hgf x hx2.1 hx2.2
    have h2 := hgf y hy2.1 hy2.2
    rw [← h1, ← h2, hxy]
  have hnd2 : ((rangeZ n).map f).Nodup := List.Nodup.map_on hinj hnd
  apply List.perm_of_nodup_nodup_toFinset_eq hnd2 hnd
  rw [list_toFinset_map]
  apply Finset.eq_of_subset_of_card_le
  · intro x hx
    rw [Finset.mem_image] at hx
    obtain ⟨p, hp, rfl⟩ := hx
    rw [List.mem_toFinset] at hp ⊢
    have hb := mem_rangeZ.mp hp
    exact mem_rangeZ.mpr (hcl p hb.1 hb.2)
  · apply le_of_eq
    symm
    apply Finset.card_image_of_injOn
    intro x hx y hy hxy
    rw [Finset.mem_coe, List.mem_toFinset] at hx hy
    exact hinj x hx y hy hxy

/-! ### Lemmas about boards, rows and the density invariant -/

theorem mem_boardTasks {b : Int} {db : DB} {t : DBTask} :
    t ∈ boardTasks b db ↔ t ∈ db ∧ t.board_id = b := by
  simp [boardTasks, List.mem_filter]

theorem boardTasks_map (F : DBTask → DBTask)
    (hb : ∀ t, (F t).board_id = t.board_id) (b : Int) (db : DB) :
    boardTasks b (db.map F) = (boardTasks b db).map F := by
  induction db with
  | nil => rfl
  | cons t ts ih =>
    by_cases h : t.board_id = b
    · simp only [boardTasks, List.map_cons, List.filter_cons, hb t, h] at *
      simp [ih]
    · simp only [boardTasks, List.map_cons, List.filter_cons, hb t, h] at *
      simp [ih]

theorem posList_map (F : DBTask → DBTask)
    (hb : ∀ t, (F t).board_id = t.board_id) (b : Int) (db : DB) :
    posList b (db.map F) = (boardTasks b db).map (fun t => (F t).position) := by
  unfold posList
  rw [boardTasks_map F hb, List.map_map]
  rfl

theorem denseBoard_iff {b : Int} {db : DB} :
    DenseBoard b db ↔ (posList b db).Perm (rangeZ (boardTasks b db).length) := by
  unfold DenseBoard
  exact Multiset.coe_eq_coe

/-- Density is preserved by a row map that fixes boards and acts on the
positions of board `b` as a self-inverse-able map of `{0, ..., n-1}`. -/
theorem dense_map_of_pointwise (b : Int) (db : DB) (F : DBTask → DBTask)
    (f g : Int → Int)
    (hb : ∀ t, (F t).board_id = t.board_id)
    (hpt : ∀ t ∈ boardTasks b db, (F t).position = f t.position)
    (hcl : ∀ p : Int, 0 ≤ p → p < (boardTasks b db).length →
      0 ≤ f p ∧ f p < (boardTasks b db).length)
    (hgf : ∀ p : Int, 0 ≤ p → p < (boardTasks b db).length → g (f p) = p)
    (hd : DenseBoard b db) : DenseBoard b (db.map F) := by
  rw [denseBoard_iff] at hd ⊢
  have hlen : (boardTasks b (db.map F)).length = (boardTasks b db).length := by
    rw [boardTasks_map F hb, List.length_map]
  rw [hlen]
  have h1 : posList b (db.map F) = (posList b db).map f := by
    rw [posList_map F hb]
    unfold posList
    rw [List.map_map]
    exact List.map_congr_left hpt
  rw [h1]
  exact (hd.map f).trans (perm_map_range _ f g hcl hgf)

/-- Density is preserved by a row map that fixes boards and acts as the
identity on every row of board `b`. -/
theorem dense_map_of_fix (b : Int) (db : DB) (F : DBTask → DBTask)
    (hb : ∀ t, (F t).board_id = t.board_id)
    (hfix : ∀ t ∈ boardTasks b db, F t = t)
    (hd : DenseBoard b db) : DenseBoard b (db.map F) := by
  have h : boardTasks b (db.map F) = boardTasks b db := by
    rw [boardTasks_map F hb, List.map_congr_left hfix]
    simp
  simp only [DenseBoard, posList, h]
  exact hd

theorem find?_id_mem {db : DB} {i : Int} {a : DBTask}
    (h : db.find? (fun t => t.id = i) = some a) : a ∈ db :=
  List.mem_of_find?_eq_some h

theorem find?_id_eq {db : DB} {i : Int} {a : DBTask}
    (h : db.find? (fun t => t.id = i) = some a) : a.id = i := by
  have := List.find?_some h
  simpa using this

theorem find?_id_unique {db : DB} {i : Int} {a : DBTask} (hu : UniqueIds db)
    (hf : db.find? (fun t => t.id = i) = some a) :
    ∀ t ∈ db, t.id = i → t = a := by
  induction db with
  | nil => simp at hf
  | cons x xs ih =>
    rw [UniqueIds, List.map_cons, List.nodup_cons] at hu
    by_cases hx : x.id = i
    · rw [List.find?_cons_of_pos _ (by simpa using hx)] at hf
      injection hf with hf
      subst hf
      intro t ht hti
      rcases List.mem_cons.mp ht with h | hmem
      · exact h
      · exfalso
        apply hu.1
        have : t.id ∈ xs.map (fun t => t.id) := List.mem_map_of_mem _ hmem
        rwa [hti, ← hx] at this
    · rw [List.find?_cons_of_neg _ (by simpa using hx)] at hf
      intro t ht hti
      rcases List.mem_cons.mp ht with h | hmem
      · exact absurd (h ▸ hti) hx
      · exact ih hu.2 hf t hmem hti

theorem uniqueIds_map {db : DB} (F : DBTask → DBTask)
    (hid : ∀ t, (F t).id = t.id) (hu : UniqueIds db) : UniqueIds (db.map F) := by
  unfold UniqueIds at *
  rw [List.map_map]
  have hcomp : ((fun t : DBTask => t.id) ∘ F) = fun t : DBTask => t.id :=
    funext fun t => hid t
  rw [hcomp]
  exact hu

theorem dense_pos_bounds {b : Int} {db : DB} {t : DBTask}
    (hd : DenseBoard b db) (ht : t ∈ boardTasks b db) :
    0 ≤ t.position ∧ t.position < (boardTasks b db).length := by
  rw [denseBoard_iff] at hd
  have hmem : t.position ∈ posList b db := List.mem_map_of_mem _ ht
  exact mem_rangeZ.mp (hd.mem_iff.mp hmem)

theorem dense_pos_inj {b : Int} {db : DB} (hd : DenseBoard b db) :
    ∀ t ∈ boardTasks b db, ∀ u ∈ boardTasks b db, t.position = u.position → t = u := by
  rw [denseBoard_iff] at hd
  have hnd : ((boardTasks b db).map (fun t => t.position)).Nodup :=
    (hd.nodup_iff).mpr (nodup_rangeZ _)
  exact fun t ht u hu h => List.inj_on_of_nodup_map hnd ht hu h

/-! ### The row maps realised by the successful branches of the operations -/

theorem swapFun_board (id1 id2 p1 p2 : Int) (t : DBTask) :
    (swapFun id1 id2 p1 p2 t).board_id = t.board_id := by
  unfold swapFun
  dsimp only
  split_ifs <;> rfl

theorem swapFun_id (id1 id2 p1 p2 : Int) (t : DBTask) :
    (swapFun id1 id2 p1 p2 t).id = t.id := by
  unfold swapFun
  dsimp only
  split_ifs <;> rfl

theorem shiftUpFun_board (B old new taskId : Int) (t : DBTask) :
    (shiftUpFun B old new taskId t).board_id = t.board_id := by
  unfold shiftUpFun
  dsimp only
  split_ifs <;> rfl

theorem shiftUpFun_id (B old new taskId : Int) (t : DBTask) :
    (shiftUpFun B old new taskId t).id = t.id := by
  unfold shiftUpFun
  dsimp only
  split_ifs <;> rfl

theorem shiftDownFun_board (B old new taskId : Int) (t : DBTask) :
    (shiftDownFun B old new taskId t).board_id = t.board_id := by
  unfold shiftDownFun
  dsimp only
  split_ifs <;> rfl

theorem shiftDownFun_id (B old new taskId : Int) (t : DBTask) :
    (shiftDownFun B old new taskId t).id = t.id := by
  unfold shiftDownFun
  dsimp only
  split_ifs <;> rfl

theorem moveOutFun_id (taskId newBoardId fp : Int) (t : DBTask) :
    (moveOutFun taskId newBoardId fp t).id = t.id := by
  unfold moveOutFun
  split_ifs <;> rfl

/-! ### Success-branch characterisations of the repository operations -/

theorem reorder_ok {db : DB} {id1 id2 : Int} {t1 t2 : DBTask}
    (h1 : id1 ≠ 0) (h2 : id2 ≠ 0)
    (hf1 : db.find? (fun t => t.id = id1) = some t1)
    (hf2 : db.find? (fun t => t.id = id2) = some t2) :
    TaskRepository.reorder db id1 id2 =
      Except.ok (db.map (swapFun id1 id2 t1.position t2.position)) := by
  unfold TaskRepository.reorder
  rw [if_neg (by tauto), hf1, hf2]
  dsimp only
  unfold setPos swapFun
  rw [List.map_map]
  rfl

theorem reorderByPosition_ok_same {db : DB} {taskId new : Int} {task : DBTask}
    (h0 : taskId ≠ 0)
    (hf : db.find? (fun t => t.id = taskId) = some task)
    (heq : task.position = new) :
    TaskRepository.reorderByPosition db taskId new = Except.ok db := by
  unfold TaskRepository.reorderByPosition
  rw [if_neg h0, hf]
  simp [heq]

theorem reorderByPosition_ok_up {db : DB} {taskId new : Int} {task : DBTask}
    (h0 : taskId ≠ 0)
    (hf : db.find? (fun t => t.id = taskId) = some task)
    (hlt : new < task.position) :
    TaskRepository.reorderByPosition db taskId new =
      Except.ok (db.map (shiftUpFun task.board_id task.position new taskId)) := by
  unfold TaskRepository.reorderByPosition
  rw [if_neg h0, hf]
  dsimp only
  rw [if_neg (by omega), if_pos hlt]
  unfold setPos shiftUpFun
  rw [List.map_map]
  rfl

theorem reorderByPosition_ok_down {db : DB} {taskId new : Int} {task : DBTask}
    (h0 : taskId ≠ 0)
    (hf : db.find? (fun t => t.id = taskId) = some task)
    (hgt : task.position < new) :
    TaskRepository.reorderByPosition db taskId new =
      Except.ok (db.map (shiftDownFun task.board_id task.position new taskId)) := by
  unfold TaskRepository.reorderByPosition
  rw [if_neg h0, hf]
  dsimp only
  rw [if_neg (by omega), if_neg (by omega)]
  unfold setPos shiftDownFun
  rw [List.map_map]
  rfl

theorem moveToBoard_ok {db : DB} {taskId nb : Int} {np : Option Int} {task : DBTask}
    (h0 : taskId ≠ 0) (hb0 : nb ≠ 0)
    (hf : db.find? (fun t => t.id = taskId) = some task)
    (hne : task.board_id ≠ nb) :
    TaskRepository.moveToBoard db taskId nb np =
      (let fp := match np with
        | some p => p
        | none => maxPosCoalesce nb db + 1
      let db1 := db.map (moveOutFun taskId nb fp)
      let rows := sortByPos (boardTasks task.board_id db1)
      Except.ok (if rows = [] then db1 else assignSeq db1 rows 1,
        ⟨task.id, task.title, fp, nb⟩)) := by
  unfold TaskRepository.moveToBoard
  rw [if_neg (by tauto), hf]
  dsimp only
  rw [if_neg hne]
  rfl

/-! ### Membership lemmas for `setPos` and `assignSeq` -/

theorem mem_setPos_of_ne {db : DB} {t : DBTask} {i p : Int}
    (ht : t ∈ db) (hne : ¬ t.id = i) : t ∈ setPos db i p := by
  unfold setPos
  exact List.mem_map.mpr ⟨t, ht, by simp [hne]⟩

theorem mem_setPos_self {db : DB} {t : DBTask} {i p : Int}
    (ht : t ∈ db) (hid : t.id = i) :
    { t with position := p } ∈ setPos db i p := by
  unfold setPos
  exact List.mem_map.mpr ⟨t, ht, by simp [hid]⟩

theorem assignSeq_preserve (rows : List DBTask) : ∀ (db : DB) (k : Int)
    (t : DBTask), t ∈ db → t.id ∉ rows.map (fun r => r.id) →
    t ∈ assignSeq db rows k := by
  induction rows with
  | nil => intro db k t ht _; exact ht
  | cons r rs ih =>
    intro db k t ht hnot
    rw [List.map_cons, List.mem_cons] at hnot
    push_neg at hnot
    simp only [assignSeq]
    exact ih (setPos db r.id k) (k + 1) t (mem_setPos_of_ne ht hnot.1) hnot.2

theorem assignSeq_get (rows : List DBTask) : ∀ (db : DB) (k : Int) (i : Nat)
    (hi : i < rows.length), (rows.map (fun r => r.id)).Nodup →
    (∀ r ∈ rows, r ∈ db) →
    { rows.get ⟨i, hi⟩ with position := k + (i : Int) } ∈ assignSeq db rows k := by
  induction rows with
  | nil => intro db k i hi; exact absurd hi (by simp)
  | cons r rs ih =>
    intro db k i hi hnd hmem
    rw [List.map_cons, List.nodup_cons] at hnd
    match i with
    | 0 =>
      simp only [assignSeq, List.get]
      have h1 : ({ r with position := k } : DBTask) ∈ setPos db r.id k :=
        mem_setPos_self (hmem r (List.mem_cons_self r rs)) rfl
      have h2 := assignSeq_preserve rs (setPos db r.id k) (k + 1) _ h1 hnd.1
      simpa using h2
    | Nat.succ j =>
      simp only [assignSeq, List.get]
      have hbound : j < rs.length := by simpa using hi
      have hmem2 : ∀ r2 ∈ rs, r2 ∈ setPos db r.id k := by
        intro r2 hr2
        apply mem_setPos_of_ne (hmem r2 (List.mem_cons_of_mem r hr2))
        intro h
        exact hnd.1 (h ▸ List.mem_map_of_mem _ hr2)
      have hres := ih (setPos db r.id k) (k + 1) j hbound hnd.2 hmem2
      have harith : (k + 1) + (j : Int) = k + ((Nat.succ j : Nat) : Int) := by
        push_cast
        ring
      rw [harith] at hres
      exact hres

theorem find?_id_map {db : DB} (F : DBTask → DBTask)
    (hid : ∀ t, (F t).id = t.id) (i : Int) :
    (db.map F).find? (fun t => t.id = i) =
      (db.find? (fun t => t.id = i)).map F := by
  induction db with
  | nil => rfl
  | cons t ts ih =>
    by_cases h : t.id = i
    · rw [List.map_cons, List.find?_cons_of_pos _ (by simp [hid t, h]),
        List.find?_cons_of_pos _ (by simp [h])]
      rfl
    · rw [List.map_cons, List.find?_cons_of_neg _ (by simp [hid t, h]),
        List.find?_cons_of_neg _ (by simp [h]), ih]

theorem sortByPos_perm (l : List DBTask) : (sortByPos l).Perm l :=
  List.perm_insertionSort posLe l

theorem sortByPos_sorted (l : List DBTask) : List.Sorted posLe (sortByPos l) :=
  List.sorted_insertionSort posLe l

/-- After `moveToBoard`'s board-and-position update, the rows of the old board
are exactly the old board's rows other than the moved one, unchanged. -/
theorem boardTasks_moveOut {db : DB} {taskId nb fp B : Int} (hne : nb ≠ B) :
    boardTasks B (db.map (moveOutFun taskId nb fp)) =
      (boardTasks B db).filter (fun t => ¬ t.id = taskId) := by
  induction db with
  | nil => rfl
  | cons t ts ih =>
    simp only [List.map_cons, boardTasks, List.filter_cons] at *
    by_cases h1 : t.id = taskId
    · by_cases h2 : t.board_id = B <;> simp [moveOutFun, h1, h2, hne, ih]
    · by_cases h2 : t.board_id = B <;> simp [moveOutFun, h1, h2, ih]

/-! ### Claim C2: delete renumbering -/

/-- Claim C2 counterexample: deleting the position-1 item of a 3-item
partition leaves the survivors at positions 0 and 2 — the code issues no
renumbering `UPDATE`, so the claimed decrement of later positions does not
happen and the survivor `C` is not at position 1. -/
theorem C2_delete_renumber_cex :
    TaskRepository.delete
      [⟨1, "A", 0, 1⟩, ⟨2, "B", 1, 1⟩, ⟨3, "C", 2, 1⟩] 2 =
      [⟨1, "A", 0, 1⟩, ⟨3, "C", 2, 1⟩] ∧
    (⟨3, "C", 1, 1⟩ : DBTask) ∉ TaskRepository.delete
      [⟨1, "A", 0, 1⟩, ⟨2, "B", 1, 1⟩, ⟨3, "C", 2, 1⟩] 2 := by
  decide

/-- Claim C2, amended: `TaskRepository.delete` removes exactly the rows with
the given id and leaves every other row (in every partition) completely
unchanged; no positions are decremented. -/
theorem C2_delete_leaves_rows_unchanged (db : DB) (i : Int) (t : DBTask) :
    t ∈ TaskRepository.delete db i ↔ t ∈ db ∧ ¬ t.id = i := by
  simp [TaskRepository.delete, List.mem_filter]

/-! ### Claim C3: create insertion shift -/

/-- Claim C3 counterexample: `CreateItem("D", position=1)` on the 3-item
partition `A0, B1, C2` appends `D` with position 1 and leaves `B` and `C`
untouched — the claimed shifted rows `B2` and `C3` do not exist. -/
theorem C3_create_shift_cex :
    TaskRepository.create
      [⟨1, "A", 0, 1⟩, ⟨2, "B", 1, 1⟩, ⟨3, "C", 2, 1⟩] "D" 1 1 =
      Except.ok ([⟨1, "A", 0, 1⟩, ⟨2, "B", 1, 1⟩, ⟨3, "C", 2, 1⟩,
        ⟨4, "D", 1, 1⟩], ⟨4, "D", 1, 1⟩) ∧
    (⟨2, "B", 2, 1⟩ : DBTask) ∉
      [⟨1, "A", 0, 1⟩, ⟨2, "B", 1, 1⟩, ⟨3, "C", 2, 1⟩, ⟨4, "D", 1, 1⟩] ∧
    (⟨3, "C", 3, 1⟩ : DBTask) ∉
      [⟨1, "A", 0, 1⟩, ⟨2, "B", 1, 1⟩, ⟨3, "C", 2, 1⟩, ⟨4, "D", 1, 1⟩] := by
  decide

/-- Claim C3, amended: `TaskRepository.create` runs a single `INSERT`; the new
row carries exactly the requested position and every existing row is left
unchanged — no `position ≥ insertPosition` rows are shifted up. -/
theorem C3_create_appends_without_shift (db : DB) (title : String)
    (pos bid : Int) (ht : ¬ title = "") (htr : ¬ jsTrim title = "")
    (hp : 0 ≤ pos) (hb : 0 < bid) :
    ∃ t : DBTask, TaskRepository.create db title pos bid =
      Except.ok (db ++ [t], t) ∧ t.position = pos ∧ t.board_id = bid := by
  unfold TaskRepository.create
  rw [if_neg (by push_neg; exact ⟨ht, by omega⟩),
    if_neg (by push_neg; exact ⟨htr, by omega, by omega⟩)]
  exact ⟨_, rfl, rfl, rfl⟩

/-- Witness for C3's amended theorem at the spec's own scenario input. -/
theorem C3_create_appends_without_shift_w :
    (¬ ("D" : String) = "") ∧ (¬ jsTrim "D" = "") ∧ ((0 : Int) ≤ 1) ∧
      ((0 : Int) < 1) ∧
    (∃ t : DBTask, TaskRepository.create
      [⟨1, "A", 0, 1⟩, ⟨2, "B", 1, 1⟩, ⟨3, "C", 2, 1⟩] "D" 1 1 =
      Except.ok ([⟨1, "A", 0, 1⟩, ⟨2, "B", 1, 1⟩, ⟨3, "C", 2, 1⟩] ++ [t], t) ∧
      t.position = 1 ∧ t.board_id = 1) :=
  ⟨by decide, by decide, by decide, by decide,
    C3_create_appends_without_shift _ "D" 1 1 (by decide) (by decide)
      (by decide) (by decide)⟩

/-! ### Claim C9: trimmed title persistence -/

/-- Claim C9 counterexample: creating an item with title `" A "` persists the
raw string `" A "`, not the trimmed form `"A"` — `create` builds the row with
the constructor, which does not trim (only the unused `setTitle` does). -/
theorem C9_title_trimmed_cex :
    TaskRepository.create [] " A " 0 1 =
      Except.ok ([⟨1, " A ", 0, 1⟩], ⟨1, " A ", 0, 1⟩) ∧
    jsTrim " A " = "A" ∧ ¬ (" A " : String) = "A" := by
  decide

/-- Claim C9, amended: whenever `create` succeeds, the persisted title is the
input string exactly as passed, untrimmed, and the row is stored. -/
theorem C9_title_persisted_raw (db : DB) (title : String) (pos bid : Int)
    (db2 : DB) (t : DBTask)
    (h : TaskRepository.create db title pos bid = Except.ok (db2, t)) :
    t.title = title ∧ t ∈ db2 := by
  unfold TaskRepository.create at h
  by_cases h1 : title = "" ∨ bid = 0
  · rw [if_pos h1] at h
    exact Except.noConfusion h
  · rw [if_neg h1] at h
    by_cases h2 : jsTrim title = "" ∨ pos < 0 ∨ bid ≤ 0
    · rw [if_pos h2] at h
      exact Except.noConfusion h
    · rw [if_neg h2] at h
      dsimp only at h
      injection h with h3
      injection h3 with h4 h5
      subst h4
      subst h5
      exact ⟨rfl, by simp⟩

/-- Witness for C9's amended theorem at a concrete whitespace-padded title. -/
theorem C9_title_persisted_raw_w :
    (TaskRepository.create [] " A " 0 1 =
      Except.ok ([⟨1, " A ", 0, 1⟩], ⟨1, " A ", 0, 1⟩)) ∧
    ((⟨1, " A ", 0, 1⟩ : DBTask).title = " A " ∧
      (⟨1, " A ", 0, 1⟩ : DBTask) ∈ [(⟨1, " A ", 0, 1⟩ : DBTask)]) :=
  ⟨by decide, C9_title_persisted_raw [] " A " 0 1 _ _ (by decide)⟩

/-! ### Claim C6: MoveWithinPartition precondition check -/

/-- Claim C6 counterexample: on a dense 2-item partition, moving item 1 to
position 5 (far beyond the item count 2) succeeds and changes positions,
whereas the claim demands an `InvalidArgument` failure with no change. -/
theorem C6_range_check_cex :
    (boardTasks 1 [⟨1, "A", 0, 1⟩, ⟨2, "B", 1, 1⟩]).length = 2 ∧
    TaskRepository.reorderByPosition [⟨1, "A", 0, 1⟩, ⟨2, "B", 1, 1⟩] 1 5 =
      Except.ok [⟨1, "A", 5, 1⟩, ⟨2, "B", 0, 1⟩] ∧
    ¬ TaskRepository.reorderByPosition [⟨1, "A", 0, 1⟩, ⟨2, "B", 1, 1⟩] 1 5 =
      Except.ok [⟨1, "A", 0, 1⟩, ⟨2, "B", 1, 1⟩] := by
  decide

/-- Claim C6, amended: the repository performs no range validation at all —
for every existing item with a nonzero id, `reorderByPosition` succeeds for
every integer `newPosition`, including values greater than or equal to the
partition's item count (the controller rejects only non-integers and
negatives, and the repository checks only `undefined`). -/
theorem C6_reorderByPosition_never_invalid (db : DB) (taskId new : Int)
    (task : DBTask) (h0 : taskId ≠ 0)
    (hf : db.find? (fun t => t.id = taskId) = some task) :
    ∃ db2, TaskRepository.reorderByPosition db taskId new = Except.ok db2 := by
  rcases lt_trichotomy new task.position with h | h | h
  · exact ⟨_, reorderByPosition_ok_up h0 hf h⟩
  · exact ⟨db, reorderByPosition_ok_same h0 hf h.symm⟩
  · exact ⟨_, reorderByPosition_ok_down h0 hf h⟩

/-- Witness for C6's amended theorem: an out-of-range move succeeds. -/
theorem C6_reorderByPosition_never_invalid_w :
    ((1 : Int) ≠ 0) ∧
    (([⟨1, "A", 0, 1⟩, ⟨2, "B", 1, 1⟩] : DB).find? (fun t => t.id = 1) =
      some ⟨1, "A", 0, 1⟩) ∧
    (∃ db2, TaskRepository.reorderByPosition
      [⟨1, "A", 0, 1⟩, ⟨2, "B", 1, 1⟩] 1 7 = Except.ok db2) :=
  ⟨by decide, by decide,
    C6_reorderByPosition_never_invalid [⟨1, "A", 0, 1⟩, ⟨2, "B", 1, 1⟩] 1 7
      ⟨1, "A", 0, 1⟩ (by decide) (by decide)⟩

/-! ### Claim C5: relocate append position -/

/-- Claim C5 counterexample: relocating `A` out of `P1 = {A0, B1, C2}` into
the empty partition 2 puts it at position 1, not at position 0 (the item
count of the empty target), because the code computes
`COALESCE(MAX(position), 0) + 1`. -/
theorem C5_relocate_append_cex :
    (boardTasks 2 [⟨1, "A", 0, 1⟩, ⟨2, "B", 1, 1⟩, ⟨3, "C", 2, 1⟩]).length
      = 0 ∧
    TaskRepository.moveToBoard
      [⟨1, "A", 0, 1⟩, ⟨2, "B", 1, 1⟩, ⟨3, "C", 2, 1⟩] 1 2 none =
      Except.ok ([⟨1, "A", 1, 2⟩, ⟨2, "B", 1, 1⟩, ⟨3, "C", 2, 1⟩],
        ⟨1, "A", 1, 2⟩) ∧
    ((1 : Int) ≠ 0) := by
  decide

/-- Claim C5, amended: when `targetPosition` is omitted, `moveToBoard` sets
the item's position to `COALESCE(MAX(position), 0) + 1` computed over the
target partition — one past the maximum position, treating an empty target as
maximum 0, hence position 1 (not 0) for an empty target.  Only for a dense
non-empty target does this coincide with the claimed item count. -/
theorem C5_relocate_default_position (db : DB) (taskId nb : Int)
    (task : DBTask) (h0 : taskId ≠ 0) (hb0 : nb ≠ 0)
    (hf : db.find? (fun t => t.id = taskId) = some task)
    (hne : task.board_id ≠ nb) :
    ∃ db2, TaskRepository.moveToBoard db taskId nb none =
      Except.ok (db2, ⟨task.id, task.title, maxPosCoalesce nb db + 1, nb⟩) := by
  rw [moveToBoard_ok h0 hb0 hf hne]
  exact ⟨_, rfl⟩

/-- Witness for C5's amended theorem: relocating into an empty partition
lands at position `COALESCE(MAX, 0) + 1 = 1`. -/
theorem C5_relocate_default_position_w :
    ((1 : Int) ≠ 0) ∧ ((2 : Int) ≠ 0) ∧
    (([⟨1, "A", 0, 1⟩] : DB).find? (fun t => t.id = 1) =
      some ⟨1, "A", 0, 1⟩) ∧
    ((⟨1, "A", 0, 1⟩ : DBTask).board_id ≠ 2) ∧
    (∃ db2, TaskRepository.moveToBoard [⟨1, "A", 0, 1⟩] 1 2 none =
      Except.ok (db2, ⟨1, "A", maxPosCoalesce 2 [⟨1, "A", 0, 1⟩] + 1, 2⟩)) ∧
    maxPosCoalesce 2 [⟨1, "A", 0, 1⟩] + 1 = 1 :=
  ⟨by decide, by decide, by decide, by decide,
    C5_relocate_default_position [⟨1, "A", 0, 1⟩] 1 2 ⟨1, "A", 0, 1⟩
      (by decide) (by decide) (by decide) (by decide), by decide⟩

/-! ### Claim C10: the reorder-position endpoint can never succeed -/

/-- Claim C10: for every request to `PUT /:id/reorder-position` the path
parameter `id` is a string, `Number.isInteger(id)` is therefore false, and the
handler always answers 400 without invoking the repository (the
`RPOutcome.rejected` constructor is produced before the repository call);
whenever the body does supply a `newPosition` and the id path segment is
non-empty, the message is exactly
"Task ID dan newPosition harus berupa angka". -/
theorem C10_endpoint_always_rejected (db : DB) (s : String) (np : JsValue) :
    (∃ msg, ctrlReorderByPosition db (JsValue.str s) np =
      RPOutcome.rejected 400 msg) ∧
    (¬ s = "" → ¬ np = JsValue.undef →
      ctrlReorderByPosition db (JsValue.str s) np =
        RPOutcome.rejected 400 "Task ID dan newPosition harus berupa angka") := by
  constructor
  · by_cases h1 : s = ""
    · refine ⟨"Task ID dan newPosition harus disediakan", ?_⟩
      unfold ctrlReorderByPosition
      rw [if_pos (Or.inl (by simp [truthy, h1]))]
    · by_cases h2 : np = JsValue.undef
      · refine ⟨"Task ID dan newPosition harus disediakan", ?_⟩
        unfold ctrlReorderByPosition
        rw [if_pos (Or.inr h2)]
      · refine ⟨"Task ID dan newPosition harus berupa angka", ?_⟩
        unfold ctrlReorderByPosition
        rw [if_neg (by push_neg; exact ⟨by simp [truthy, h1], h2⟩),
          if_pos (Or.inl (by simp [isIntegerJs]))]
  · intro h1 h2
    unfold ctrlReorderByPosition
    rw [if_neg (by push_neg; exact ⟨by simp [truthy, h1], h2⟩),
      if_pos (Or.inl (by simp [isIntegerJs]))]

/-- Witness for C10 at a concrete request (`id = "7"`, integer body). -/
theorem C10_endpoint_always_rejected_w :
    ctrlReorderByPosition [] (JsValue.str "7") (JsValue.int 3) =
      RPOutcome.rejected 400 "Task ID dan newPosition harus berupa angka" :=
  (C10_endpoint_always_rejected [] "7" (JsValue.int 3)).2 (by decide) (by decide)

/-! ### Case equations for the row maps -/

theorem swapFun_fst {id1 id2 p1 p2 : Int} {t : DBTask}
    (h1 : t.id = id1) (h2 : ¬ t.id = id2) :
    swapFun id1 id2 p1 p2 t = { t with position := p2 } := by
  have h3 : ¬ id1 = id2 := h1 ▸ h2
  simp [swapFun, h1, h2, h3]

theorem swapFun_snd {id1 id2 p1 p2 : Int} {t : DBTask}
    (h1 : ¬ t.id = id1) (h2 : t.id = id2) :
    swapFun id1 id2 p1 p2 t = { t with position := p1 } := by
  have h3 : ¬ id2 = id1 := h2 ▸ h1
  simp [swapFun, h1, h2, h3]

theorem swapFun_both {id1 id2 p1 p2 : Int} {t : DBTask}
    (h1 : t.id = id1) (h2 : t.id = id2) :
    swapFun id1 id2 p1 p2 t = { t with position := p1 } := by
  have h3 : id1 = id2 := h1 ▸ h2
  simp [swapFun, h1, h2, h3]

theorem swapFun_fix {id1 id2 p1 p2 : Int} {t : DBTask}
    (h1 : ¬ t.id = id1) (h2 : ¬ t.id = id2) :
    swapFun id1 id2 p1 p2 t = t := by
  simp [swapFun, h1, h2]

theorem shiftUpFun_shift {B old new taskId : Int} {t : DBTask}
    (hb : t.board_id = B) (hge : new ≤ t.position) (hlt : t.position < old)
    (hid : ¬ t.id = taskId) :
    shiftUpFun B old new taskId t = { t with position := t.position + 1 } := by
  simp [shiftUpFun, hb, hge, hlt, hid]

theorem shiftUpFun_self {B old new taskId : Int} {t : DBTask}
    (hno : ¬ (t.board_id = B ∧ new ≤ t.position ∧ t.position < old))
    (hid : t.id = taskId) :
    shiftUpFun B old new taskId t = { t with position := new } := by
  simp [shiftUpFun, hno, hid]

theorem shiftUpFun_fix {B old new taskId : Int} {t : DBTask}
    (hno : ¬ (t.board_id = B ∧ new ≤ t.position ∧ t.position < old))
    (hid : ¬ t.id = taskId) :
    shiftUpFun B old new taskId t = t := by
  simp [shiftUpFun, hno, hid]

theorem shiftDownFun_shift {B old new taskId : Int} {t : DBTask}
    (hb : t.board_id = B) (hgt : old < t.position) (hle : t.position ≤ new)
    (hid : ¬ t.id = taskId) :
    shiftDownFun B old new taskId t = { t with position := t.position - 1 } := by
  simp [shiftDownFun, hb, hgt, hle, hid]

theorem shiftDownFun_self {B old new taskId : Int} {t : DBTask}
    (hno : ¬ (t.board_id = B ∧ old < t.position ∧ t.position ≤ new))
    (hid : t.id = taskId) :
    shiftDownFun B old new taskId t = { t with position := new } := by
  simp [shiftDownFun, hno, hid]

theorem shiftDownFun_fix {B old new taskId : Int} {t : DBTask}
    (hno : ¬ (t.board_id = B ∧ old < t.position ∧ t.position ≤ new))
    (hid : ¬ t.id = taskId) :
    shiftDownFun B old new taskId t = t := by
  simp [shiftDownFun, hno, hid]

theorem moveOutFun_self {taskId nb fp : Int} {t : DBTask} (hid : t.id = taskId) :
    moveOutFun taskId nb fp t = { t with board_id := nb, position := fp } := by
  simp [moveOutFun, hid]

theorem moveOutFun_fix {taskId nb fp : Int} {t : DBTask} (hid : ¬ t.id = taskId) :
    moveOutFun taskId nb fp t = t := by
  simp [moveOutFun, hid]

/-! ### Claim C7: MoveWithinPartition shift algorithm -/

/-- Claim C7: for an existing item of a dense partition and an in-range
`newPosition`, `reorderByPosition` realises the claimed shift algorithm: the
moved row ends at `newPosition`; when moving up, every other row of the
partition with position in `[newPosition, oldPosition)` is incremented by
one; when moving down, every other row with position in
`(oldPosition, newPosition]` is decremented by one; rows of other partitions
and rows outside the shifted range are unchanged. -/
theorem C7_move_within_shift (db : DB) (taskId new : Int) (task : DBTask)
    (db2 : DB) (h0 : taskId ≠ 0)
    (hf : db.find? (fun t => t.id = taskId) = some task)
    (_hd : DenseBoard task.board_id db) (_hnew0 : 0 ≤ new)
    (_hnewlt : new < (boardTasks task.board_id db).length)
    (hok : TaskRepository.reorderByPosition db taskId new = Except.ok db2) :
    ({ task with position := new } ∈ db2) ∧
    (new < task.position → ∀ t ∈ db, ¬ t.id = taskId →
      t.board_id = task.board_id → new ≤ t.position →
      t.position < task.position →
      { t with position := t.position + 1 } ∈ db2) ∧
    (task.position < new → ∀ t ∈ db, ¬ t.id = taskId →
      t.board_id = task.board_id → task.position < t.position →
      t.position ≤ new → { t with position := t.position - 1 } ∈ db2) ∧
    (∀ t ∈ db, ¬ t.id = taskId →
      (¬ t.board_id = task.board_id ∨
        t.position < min new task.position ∨
        max new task.position < t.position) → t ∈ db2) := by
  have hid := find?_id_eq hf
  have hmem := find?_id_mem hf
  rcases lt_trichotomy new task.position with hlt | heq | hgt
  · rw [reorderByPosition_ok_up h0 hf hlt] at hok
    injection hok with hok
    subst hok
    refine ⟨?_, ?_, ?_, ?_⟩
    · refine List.mem_map.mpr ⟨task, hmem, ?_⟩
      exact shiftUpFun_self (fun hcon => absurd hcon.2.2 (lt_irrefl _)) hid
    · intro _ t htm htid htb hge hlt2
      exact List.mem_map.mpr ⟨t, htm, shiftUpFun_shift htb hge hlt2 htid⟩
    · exact fun hcon => absurd hcon (by omega)
    · intro t htm htid hreg
      refine List.mem_map.mpr ⟨t, htm, shiftUpFun_fix ?_ htid⟩
      rcases hreg with h | h | h
      · exact fun hcon => h hcon.1
      · exact fun hcon => by omega
      · exact fun hcon => by omega
  · rw [reorderByPosition_ok_same h0 hf heq.symm] at hok
    injection hok with hok
    subst hok
    refine ⟨?_, ?_, ?_, ?_⟩
    · rw [heq]
      exact hmem
    · exact fun hcon => absurd hcon (by omega)
    · exact fun hcon => absurd hcon (by omega)
    · exact fun t htm _ _ => htm
  · rw [reorderByPosition_ok_down h0 hf hgt] at hok
    injection hok with hok
    subst hok
    refine ⟨?_, ?_, ?_, ?_⟩
    · refine List.mem_map.mpr ⟨task, hmem, ?_⟩
      exact shiftDownFun_self (fun hcon => absurd hcon.2.1 (lt_irrefl _)) hid
    · exact fun hcon => absurd hcon (by omega)
    · intro _ t htm htid htb hgt2 hle
      exact List.mem_map.mpr ⟨t, htm, shiftDownFun_shift htb hgt2 hle htid⟩
    · intro t htm htid hreg
      refine List.mem_map.mpr ⟨t, htm, shiftDownFun_fix ?_ htid⟩
      rcases hreg with h | h | h
      · exact fun hcon => h hcon.1
      · exact fun hcon => by omega
      · exact fun hcon => by omega

/-- Witness for C7 at the spec's scenario: `A0, B1, C2`, move `C` to 0;
the resulting table is `A1, B2, C0`. -/
theorem C7_move_within_shift_w :
    ((3 : Int) ≠ 0) ∧
    (([⟨1, "A", 0, 1⟩, ⟨2, "B", 1, 1⟩, ⟨3, "C", 2, 1⟩] : DB).find?
      (fun t => t.id = 3) = some ⟨3, "C", 2, 1⟩) ∧
    DenseBoard (⟨3, "C", 2, 1⟩ : DBTask).board_id
      [⟨1, "A", 0, 1⟩, ⟨2, "B", 1, 1⟩, ⟨3, "C", 2, 1⟩] ∧
    ((0 : Int) ≤ 0) ∧
    ((0 : Int) < (boardTasks (⟨3, "C", 2, 1⟩ : DBTask).board_id
      [⟨1, "A", 0, 1⟩, ⟨2, "B", 1, 1⟩, ⟨3, "C", 2, 1⟩]).length) ∧
    (TaskRepository.reorderByPosition
      [⟨1, "A", 0, 1⟩, ⟨2, "B", 1, 1⟩, ⟨3, "C", 2, 1⟩] 3 0 =
      Except.ok [⟨1, "A", 1, 1⟩, ⟨2, "B", 2, 1⟩, ⟨3, "C", 0, 1⟩]) ∧
    ((⟨3, "C", 0, 1⟩ : DBTask) ∈
      [⟨1, "A", 1, 1⟩, ⟨2, "B", 2, 1⟩, ⟨3, "C", 0, 1⟩]) :=
  ⟨by decide, by decide, by decide, by decide, by decide, by decide,
    (C7_move_within_shift
      [⟨1, "A", 0, 1⟩, ⟨2, "B", 1, 1⟩, ⟨3, "C", 2, 1⟩] 3 0 ⟨3, "C", 2, 1⟩
      [⟨1, "A", 1, 1⟩, ⟨2, "B", 2, 1⟩, ⟨3, "C", 0, 1⟩]
      (by decide) (by decide) (by decide) (by decide) (by decide)
      (by decide)).1⟩

/-! ### Claim C8: swap idempotence -/

/-- Claim C8: for two existing rows, `reorder` exchanges exactly the two
stored position values — row `a` receives `b`'s old position and vice versa —
and running `reorder` again returns the table to exactly its original state
(ids are unique, as the store guarantees). -/
theorem C8_swap_exchange_involution (db : DB) (id1 id2 : Int)
    (t1 t2 : DBTask) (hu : UniqueIds db) (h1 : id1 ≠ 0) (h2 : id2 ≠ 0)
    (hf1 : db.find? (fun t => t.id = id1) = some t1)
    (hf2 : db.find? (fun t => t.id = id2) = some t2) :
    ∃ db2, TaskRepository.reorder db id1 id2 = Except.ok db2 ∧
      { t1 with position := t2.position } ∈ db2 ∧
      { t2 with position := t1.position } ∈ db2 ∧
      TaskRepository.reorder db2 id1 id2 = Except.ok db := by
  have hid1 := find?_id_eq hf1
  have hid2 := find?_id_eq hf2
  have hm1 := find?_id_mem hf1
  have hm2 := find?_id_mem hf2
  by_cases hii : id1 = id2
  · -- both lookups hit the same row; the two updates rewrite its position
    -- to its own old value, so the table is unchanged
    have ht12 : t1 = t2 := by
      rw [← hii] at hf2
      rw [hf1] at hf2
      exact Option.some.inj hf2
    subst ht12
    have hfix : ∀ t ∈ db, swapFun id1 id2 t1.position t1.position t = t := by
      intro t htm
      by_cases ha : t.id = id1
      · have heq := find?_id_unique hu hf1 t htm ha
        subst heq
        rw [swapFun_both ha (hii ▸ ha)]
      · rw [swapFun_fix ha (fun hb => ha (hii.symm ▸ hb))]
    have hdb : db.map (swapFun id1 id2 t1.position t1.position) = db := by
      rw [List.map_congr_left hfix]
      simp
    refine ⟨db, ?_, ?_, ?_, ?_⟩
    · rw [reorder_ok h1 h2 hf1 hf2, hdb]
    · exact hm1
    · exact hm1
    · rw [reorder_ok h1 h2 hf1 hf2, hdb]
  · -- two distinct rows
    have hne12 : ¬ t1.id = id2 := fun hcon => hii (by rw [← hcon]; exact hid1.symm)
    have hne21 : ¬ t2.id = id1 := fun hcon => hii (by rw [← hcon]; exact hid2)
    refine ⟨db.map (swapFun id1 id2 t1.position t2.position),
      reorder_ok h1 h2 hf1 hf2, ?_, ?_, ?_⟩
    · exact List.mem_map.mpr ⟨t1, hm1, swapFun_fst hid1 hne12⟩
    · exact List.mem_map.mpr ⟨t2, hm2, swapFun_snd hne21 hid2⟩
    · -- second swap: the lookups now find the updated rows and swap back
      have hswid : ∀ t, (swapFun id1 id2 t1.position t2.position t).id = t.id :=
        swapFun_id id1 id2 t1.position t2.position
      have hg1 : (db.map (swapFun id1 id2 t1.position t2.position)).find?
          (fun t => t.id = id1) = some { t1 with position := t2.position } := by
        rw [find?_id_map _ hswid, hf1]
        show some (swapFun id1 id2 t1.position t2.position t1) = _
        rw [swapFun_fst hid1 hne12]
      have hg2 : (db.map (swapFun id1 id2 t1.position t2.position)).find?
          (fun t => t.id = id2) = some { t2 with position := t1.position } := by
        rw [find?_id_map _ hswid, hf2]
        show some (swapFun id1 id2 t1.position t2.position t2) = _
        rw [swapFun_snd hne21 hid2]
      rw [reorder_ok h1 h2 hg1 hg2]
      dsimp only
      rw [List.map_map]
      have hback : ∀ t ∈ db,
          (swapFun id1 id2 t2.position t1.position ∘
            swapFun id1 id2 t1.position t2.position) t = t := by
        intro t htm
        by_cases ha : t.id = id1
        · have heq := find?_id_unique hu hf1 t htm ha
          rw [heq]
          simp only [Function.comp]
          rw [swapFun_fst hid1 hne12]
          have e2 : swapFun id1 id2 t2.position t1.position
              { t1 with position := t2.position } =
              { t1 with position := t1.position } :=
            swapFun_fst (t := { t1 with position := t2.position }) hid1 hne12
          rw [e2]
        · by_cases hb : t.id = id2
          · have heq := find?_id_unique hu hf2 t htm hb
            rw [heq]
            simp only [Function.comp]
            rw [swapFun_snd hne21 hid2]
            have e2 : swapFun id1 id2 t2.position t1.position
                { t2 with position := t1.position } =
                { t2 with position := t2.position } :=
              swapFun_snd (t := { t2 with position := t1.position }) hne21 hid2
            rw [e2]
          · simp only [Function.comp]
            rw [swapFun_fix ha hb, swapFun_fix ha hb]
      rw [List.map_congr_left hback]
      simp

/-- Witness for C8 on a concrete two-row table. -/
theorem C8_swap_exchange_involution_w :
    UniqueIds [⟨1, "A", 0, 1⟩, ⟨2, "B", 1, 1⟩] ∧
    ((1 : Int) ≠ 0) ∧ ((2 : Int) ≠ 0) ∧
    (([⟨1, "A", 0, 1⟩, ⟨2, "B", 1, 1⟩] : DB).find? (fun t => t.id = 1) =
      some ⟨1, "A", 0, 1⟩) ∧
    (([⟨1, "A", 0, 1⟩, ⟨2, "B", 1, 1⟩] : DB).find? (fun t => t.id = 2) =
      some ⟨2, "B", 1, 1⟩) ∧
    (∃ db2, TaskRepository.reorder [⟨1, "A", 0, 1⟩, ⟨2, "B", 1, 1⟩] 1 2 =
        Except.ok db2 ∧
      (⟨1, "A", 1, 1⟩ : DBTask) ∈ db2 ∧
      (⟨2, "B", 0, 1⟩ : DBTask) ∈ db2 ∧
      TaskRepository.reorder db2 1 2 =
        Except.ok [⟨1, "A", 0, 1⟩, ⟨2, "B", 1, 1⟩]) :=
  ⟨by decide, by decide, by decide, by decide, by decide,
    C8_swap_exchange_involution [⟨1, "A", 0, 1⟩, ⟨2, "B", 1, 1⟩] 1 2
      ⟨1, "A", 0, 1⟩ ⟨2, "B", 1, 1⟩ (by decide) (by decide) (by decide)
      (by decide) (by decide)⟩

/-! ### Claim C4: relocate source re-densification -/

/-- Claim C4 counterexample: relocating `A` out of `P1 = {A0, B1, C2}` leaves
`B` and `C` at positions 1 and 2 (the code renumbers the source partition to
`index + 1`), not at the claimed positions 0 and 1. -/
theorem C4_relocate_renumber_cex :
    TaskRepository.moveToBoard
      [⟨1, "A", 0, 1⟩, ⟨2, "B", 1, 1⟩, ⟨3, "C", 2, 1⟩] 1 2 (some 0) =
      Except.ok ([⟨1, "A", 0, 2⟩, ⟨2, "B", 1, 1⟩, ⟨3, "C", 2, 1⟩],
        ⟨1, "A", 0, 2⟩) ∧
    (⟨2, "B", 0, 1⟩ : DBTask) ∉
      ([⟨1, "A", 0, 2⟩, ⟨2, "B", 1, 1⟩, ⟨3, "C", 2, 1⟩] : DB) := by
  decide

/-- Claim C4, amended: after a successful relocation the `k` rows remaining in
the source partition, taken in ascending order of their prior positions, are
assigned the positions `1, 2, ..., k` (not `0, ..., k-1`): the renumbering
loop writes `index + 1`. -/
theorem C4_relocate_renumbers_from_one (db : DB) (taskId nb : Int)
    (np : Option Int) (task : DBTask) (db2 : DB) (tret : DBTask)
    (hu : UniqueIds db) (h0 : taskId ≠ 0) (hb0 : nb ≠ 0)
    (hf : db.find? (fun t => t.id = taskId) = some task)
    (hne : task.board_id ≠ nb)
    (hmv : TaskRepository.moveToBoard db taskId nb np = Except.ok (db2, tret)) :
    List.Sorted posLe (sortByPos ((boardTasks task.board_id db).filter
      (fun t => ¬ t.id = taskId))) ∧
    (sortByPos ((boardTasks task.board_id db).filter
      (fun t => ¬ t.id = taskId))).Perm
      ((boardTasks task.board_id db).filter (fun t => ¬ t.id = taskId)) ∧
    ∀ (i : Nat) (hi : i < (sortByPos ((boardTasks task.board_id db).filter
        (fun t => ¬ t.id = taskId))).length),
      { (sortByPos ((boardTasks task.board_id db).filter
          (fun t => ¬ t.id = taskId))).get ⟨i, hi⟩ with
        position := 1 + (i : Int) } ∈ db2 := by
  rw [moveToBoard_ok h0 hb0 hf hne] at hmv
  dsimp only at hmv
  rw [boardTasks_moveOut (Ne.symm hne)] at hmv
  injection hmv with hmv
  injection hmv with hdb htret
  subst hdb
  refine ⟨sortByPos_sorted _, sortByPos_perm _, ?_⟩
  by_cases hS : sortByPos ((boardTasks task.board_id db).filter
      (fun t => ¬ t.id = taskId)) = []
  · intro i hi
    rw [hS] at hi
    exact absurd hi (by simp)
  · rw [if_neg hS]
    intro i hi
    have hsub : ((boardTasks task.board_id db).filter
        (fun t => ¬ t.id = taskId)).Sublist db :=
      List.Sublist.trans (List.filter_sublist _) (List.filter_sublist _)
    have hndf : (((boardTasks task.board_id db).filter
        (fun t => ¬ t.id = taskId)).map (fun r => r.id)).Nodup :=
      List.Nodup.sublist (List.Sublist.map _ hsub) hu
    have hnd : ((sortByPos ((boardTasks task.board_id db).filter
        (fun t => ¬ t.id = taskId))).map (fun r => r.id)).Nodup :=
      ((List.Perm.map _ (sortByPos_perm _)).nodup_iff).mpr hndf
    refine assignSeq_get _ _ 1 i hi hnd ?_
    intro r hr
    have hr2 := (sortByPos_perm _).mem_iff.mp hr
    obtain ⟨hrb, hrid⟩ := List.mem_filter.mp hr2
    have hrdb : r ∈ db := (mem_boardTasks.mp hrb).1
    exact List.mem_map.mpr ⟨r, hrdb, moveOutFun_fix (by simpa using hrid)⟩

/-- Witness for C4's amended theorem on the spec's scenario (`A` leaves
`P1 = {A0, B1, C2}`): survivors `B`, `C` receive positions 1 and 2. -/
theorem C4_relocate_renumbers_from_one_w :
    UniqueIds [⟨1, "A", 0, 1⟩, ⟨2, "B", 1, 1⟩, ⟨3, "C", 2, 1⟩] ∧
    ((1 : Int) ≠ 0) ∧ ((2 : Int) ≠ 0) ∧
    (([⟨1, "A", 0, 1⟩, ⟨2, "B", 1, 1⟩, ⟨3, "C", 2, 1⟩] : DB).find?
      (fun t => t.id = 1) = some ⟨1, "A", 0, 1⟩) ∧
    ((⟨1, "A", 0, 1⟩ : DBTask).board_id ≠ 2) ∧
    (TaskRepository.moveToBoard
      [⟨1, "A", 0, 1⟩, ⟨2, "B", 1, 1⟩, ⟨3, "C", 2, 1⟩] 1 2 none =
      Except.ok ([⟨1, "A", 1, 2⟩, ⟨2, "B", 1, 1⟩, ⟨3, "C", 2, 1⟩],
        ⟨1, "A", 1, 2⟩)) ∧
    (∀ (i : Nat) (hi : i < (sortByPos ((boardTasks
        (⟨1, "A", 0, 1⟩ : DBTask).board_id
        [⟨1, "A", 0, 1⟩, ⟨2, "B", 1, 1⟩, ⟨3, "C", 2, 1⟩]).filter
        (fun t => ¬ t.id = 1))).length),
      { (sortByPos ((boardTasks (⟨1, "A", 0, 1⟩ : DBTask).board_id
          [⟨1, "A", 0, 1⟩, ⟨2, "B", 1, 1⟩, ⟨3, "C", 2, 1⟩]).filter
          (fun t => ¬ t.id = 1))).get ⟨i, hi⟩ with
        position := 1 + (i : Int) } ∈
        ([⟨1, "A", 1, 2⟩, ⟨2, "B", 1, 1⟩, ⟨3, "C", 2, 1⟩] : DB)) :=
  ⟨by decide, by decide, by decide, by decide, by decide, by decide,
    (C4_relocate_renumbers_from_one
      [⟨1, "A", 0, 1⟩, ⟨2, "B", 1, 1⟩, ⟨3, "C", 2, 1⟩] 1 2 none
      ⟨1, "A", 0, 1⟩ [⟨1, "A", 1, 2⟩, ⟨2, "B", 1, 1⟩, ⟨3, "C", 2, 1⟩]
      ⟨1, "A", 1, 2⟩ (by decide) (by decide) (by decide) (by decide)
      (by decide) (by decide)).2.2⟩

/-! ### Claim C1: density invariant -/

/-- Claim C1 counterexample: from a dense 2-item partition, a single
`CreateItem` at position 0 (a legal insert position per the spec) yields a
partition whose positions are `{0, 1, 0}` — not `{0, 1, 2}` — because the
code never shifts existing rows.  Density is therefore not preserved by
arbitrary Ledger operation sequences. -/
theorem C1_density_cex :
    DenseBoard 1 [⟨1, "A", 0, 1⟩, ⟨2, "B", 1, 1⟩] ∧
    TaskRepository.create [⟨1, "A", 0, 1⟩, ⟨2, "B", 1, 1⟩] "C" 0 1 =
      Except.ok ([⟨1, "A", 0, 1⟩, ⟨2, "B", 1, 1⟩, ⟨3, "C", 0, 1⟩],
        ⟨3, "C", 0, 1⟩) ∧
    ¬ DenseBoard 1 [⟨1, "A", 0, 1⟩, ⟨2, "B", 1, 1⟩, ⟨3, "C", 0, 1⟩] := by
  decide

/-- Claim C1, amended: density is preserved only by the two shifting
operations — a swap (`reorder`) of two rows of the same partition, and a
move-within-partition (`reorderByPosition`) with in-range target — for every
partition, over any store state with distinct ids.  `create`, `delete` and
`moveToBoard` do not preserve density in general. -/
theorem C1_density_preserved_swap_move :
    (∀ (db : DB) (id1 id2 : Int) (t1 t2 : DBTask) (db2 : DB),
      UniqueIds db →
      db.find? (fun t => t.id = id1) = some t1 →
      db.find? (fun t => t.id = id2) = some t2 →
      t1.board_id = t2.board_id →
      TaskRepository.reorder db id1 id2 = Except.ok db2 →
      ∀ b, DenseBoard b db → DenseBoard b db2) ∧
    (∀ (db : DB) (taskId new : Int) (task : DBTask) (db2 : DB),
      UniqueIds db →
      db.find? (fun t => t.id = taskId) = some task →
      0 ≤ new → new < (boardTasks task.board_id db).length →
      TaskRepository.reorderByPosition db taskId new = Except.ok db2 →
      ∀ b, DenseBoard b db → DenseBoard b db2) := by
  constructor
  · intro db id1 id2 t1 t2 db2 hu hf1 hf2 hbb hok b hd
    by_cases hz : id1 = 0 ∨ id2 = 0
    · unfold TaskRepository.reorder at hok
      rw [if_pos hz] at hok
      exact Except.noConfusion hok
    push_neg at hz
    rw [reorder_ok hz.1 hz.2 hf1 hf2] at hok
    injection hok with hok
    subst hok
    have hid1 := find?_id_eq hf1
    have hid2 := find?_id_eq hf2
    have hm1 := find?_id_mem hf1
    have hm2 := find?_id_mem hf2
    by_cases hb : b = t1.board_id
    · subst hb
      by_cases hii : id1 = id2
      · -- same row twice: the state is unchanged
        have ht12 : t1 = t2 := by
          rw [← hii] at hf2
          rw [hf1] at hf2
          exact Option.some.inj hf2
        subst ht12
        have hfix2 : ∀ t ∈ db, swapFun id1 id2 t1.position t1.position t = t := by
          intro t htm
          by_cases ha : t.id = id1
          · have heq := find?_id_unique hu hf1 t htm ha
            rw [heq, swapFun_both hid1 (hii ▸ hid1)]
          · rw [swapFun_fix ha (fun hcon => ha (hii.symm ▸ hcon))]
        rw [List.map_congr_left hfix2]
        simpa using hd
      · -- two distinct same-partition rows: a transposition of positions
        have hne12 : ¬ t1.id = id2 := fun hcon => hii (by rw [← hcon]; exact hid1.symm)
        have hne21 : ¬ t2.id = id1 := fun hcon => hii (by rw [← hcon]; exact hid2)
        have ht1m : t1 ∈ boardTasks t1.board_id db := mem_boardTasks.mpr ⟨hm1, rfl⟩
        have ht2m : t2 ∈ boardTasks t1.board_id db := mem_boardTasks.mpr ⟨hm2, hbb.symm⟩
        have hp12 : t1.position ≠ t2.position := by
          intro hcon
          have heq := dense_pos_inj hd t1 ht1m t2 ht2m hcon
          exact hii (by rw [← hid1, heq, hid2])
        have hbd1 := dense_pos_bounds hd ht1m
        have hbd2 := dense_pos_bounds hd ht2m
        apply dense_map_of_pointwise _ db _
          (fun p => if p = t1.position then t2.position
            else if p = t2.position then t1.position else p)
          (fun p => if p = t1.position then t2.position
            else if p = t2.position then t1.position else p)
          (swapFun_board id1 id2 t1.position t2.position) ?_ ?_ ?_ hd
        · intro t htm
          by_cases ha : t.id = id1
          · have heq := find?_id_unique hu hf1 t (mem_boardTasks.mp htm).1 ha
            rw [heq, swapFun_fst hid1 hne12]
            simp
          · by_cases hbᵢ : t.id = id2
            · have heq := find?_id_unique hu hf2 t (mem_boardTasks.mp htm).1 hbᵢ
              rw [heq, swapFun_snd hne21 hid2]
              simp [hp12.symm]
            · have hpne1 : t.position ≠ t1.position := by
                intro hcon
                have heq := dense_pos_inj hd t htm t1 ht1m hcon
                exact ha (by rw [heq, hid1])
              have hpne2 : t.position ≠ t2.position := by
                intro hcon
                have heq := dense_pos_inj hd t htm t2 ht2m hcon
                exact hbᵢ (by rw [heq, hid2])
              rw [swapFun_fix ha hbᵢ]
              simp [hpne1, hpne2]
        · intro p hp0 hpn
          dsimp only
          split_ifs <;> omega
        · intro p hp0 hpn
          dsimp only
          split_ifs <;> omega
    · -- partitions other than the swapped rows' one are untouched
      apply dense_map_of_fix b db _
        (swapFun_board id1 id2 t1.position t2.position) ?_ hd
      intro t htm
      obtain ⟨htdb, htb⟩ := mem_boardTasks.mp htm
      have ha : ¬ t.id = id1 := by
        intro hcon
        have heq := find?_id_unique hu hf1 t htdb hcon
        exact hb (by rw [← htb, heq])
      have ha2 : ¬ t.id = id2 := by
        intro hcon
        have heq := find?_id_unique hu hf2 t htdb hcon
        exact hb (by rw [← htb, heq, ← hbb])
      exact swapFun_fix ha ha2
  · intro db taskId new task db2 hu hf h0le hltn hok b hd
    by_cases hz : taskId = 0
    · unfold TaskRepository.reorderByPosition at hok
      rw [if_pos hz] at hok
      exact Except.noConfusion hok
    have hid := find?_id_eq hf
    have hm := find?_id_mem hf
    rcases lt_trichotomy new task.position with hlt2 | heq | hgt2
    · rw [reorderByPosition_ok_up hz hf hlt2] at hok
      injection hok with hok
      subst hok
      by_cases hb : b = task.board_id
      · subst hb
        have htaskm : task ∈ boardTasks task.board_id db :=
          mem_boardTasks.mpr ⟨hm, rfl⟩
        have hbt := dense_pos_bounds hd htaskm
        apply dense_map_of_pointwise _ db _
          (fun p => if p = task.position then new
            else if new ≤ p ∧ p < task.position then p + 1 else p)
          (fun q => if q = new then task.position
            else if new < q ∧ q ≤ task.position then q - 1 else q)
          (shiftUpFun_board _ _ _ _) ?_ ?_ ?_ hd
        · intro t htm
          by_cases ha : t.id = taskId
          · have heq2 := find?_id_unique hu hf t (mem_boardTasks.mp htm).1 ha
            rw [heq2, shiftUpFun_self (fun hcon =>
              absurd hcon.2.2 (lt_irrefl _)) hid]
            simp
          · have hpne : t.position ≠ task.position := by
              intro hcon
              have heq2 := dense_pos_inj hd t htm task htaskm hcon
              exact ha (by rw [heq2, hid])
            by_cases hr : new ≤ t.position ∧ t.position < task.position
            · rw [shiftUpFun_shift (mem_boardTasks.mp htm).2 hr.1 hr.2 ha]
              simp [hpne, hr]
            · rw [shiftUpFun_fix (fun hcon => hr ⟨hcon.2.1, hcon.2.2⟩) ha]
              simp [hpne, hr]
        · intro p hp0 hpn
          dsimp only
          split_ifs <;> omega
        · intro p hp0 hpn
          dsimp only
          split_ifs <;> omega
      · apply dense_map_of_fix b db _ (shiftUpFun_board _ _ _ _) ?_ hd
        intro t htm
        obtain ⟨htdb, htb⟩ := mem_boardTasks.mp htm
        have ha : ¬ t.id = taskId := by
          intro hcon
          have heq2 := find?_id_unique hu hf t htdb hcon
          exact hb (by rw [← htb, heq2])
        refine shiftUpFun_fix (fun hcon => ?_) ha
        exact hb (by rw [← htb]; exact hcon.1)
    · rw [reorderByPosition_ok_same hz hf heq.symm] at hok
      injection hok with hok
      subst hok
      exact hd
    · rw [reorderByPosition_ok_down hz hf hgt2] at hok
      injection hok with hok
      subst hok
      by_cases hb : b = task.board_id
      · subst hb
        have htaskm : task ∈ boardTasks task.board_id db :=
          mem_boardTasks.mpr ⟨hm, rfl⟩
        have hbt := dense_pos_bounds hd htaskm
        apply dense_map_of_pointwise _ db _
          (fun p => if p = task.position then new
            else if task.position < p ∧ p ≤ new then p - 1 else p)
          (fun q => if q = new then task.position
            else if task.position ≤ q ∧ q < new then q + 1 else q)
          (shiftDownFun_board _ _ _ _) ?_ ?_ ?_ hd
        · intro t htm
          by_cases ha : t.id = taskId
          · have heq2 := find?_id_unique hu hf t (mem_boardTasks.mp htm).1 ha
            rw [heq2, shiftDownFun_self (fun hcon =>
              absurd hcon.2.1 (lt_irrefl _)) hid]
            simp
          · have hpne : t.position ≠ task.position := by
              intro hcon
              have heq2 := dense_pos_inj hd t htm task htaskm hcon
              exact ha (by rw [heq2, hid])
            by_cases hr : task.position < t.position ∧ t.position ≤ new
            · rw [shiftDownFun_shift (mem_boardTasks.mp htm).2 hr.1 hr.2 ha]
              simp [hpne, hr]
            · rw [shiftDownFun_fix (fun hcon => hr ⟨hcon.2.1, hcon.2.2⟩) ha]
              simp [hpne, hr]
        · intro p hp0 hpn
          dsimp only
          split_ifs <;> omega
        · intro p hp0 hpn
          dsimp only
          split_ifs <;> omega
      · apply dense_map_of_fix b db _ (shiftDownFun_board _ _ _ _) ?_ hd
        intro t htm
        obtain ⟨htdb, htb⟩ := mem_boardTasks.mp htm
        have ha : ¬ t.id = taskId := by
          intro hcon
          have heq2 := find?_id_unique hu hf t htdb hcon
          exact hb (by rw [← htb, heq2])
        refine shiftDownFun_fix (fun hcon => ?_) ha
        exact hb (by rw [← htb]; exact hcon.1)

/-- Witness for C1's amended theorem: a same-partition swap and an in-range
move both preserve density on concrete dense tables. -/
theorem C1_density_preserved_swap_move_w :
    (UniqueIds [⟨1, "A", 0, 1⟩, ⟨2, "B", 1, 1⟩]) ∧
    (([⟨1, "A", 0, 1⟩, ⟨2, "B", 1, 1⟩] : DB).find? (fun t => t.id = 1) =
      some ⟨1, "A", 0, 1⟩) ∧
    (([⟨1, "A", 0, 1⟩, ⟨2, "B", 1, 1⟩] : DB).find? (fun t => t.id = 2) =
      some ⟨2, "B", 1, 1⟩) ∧
    (TaskRepository.reorder [⟨1, "A", 0, 1⟩, ⟨2, "B", 1, 1⟩] 1 2 =
      Except.ok [⟨1, "A", 1, 1⟩, ⟨2, "B", 0, 1⟩]) ∧
    DenseBoard 1 [⟨1, "A", 0, 1⟩, ⟨2, "B", 1, 1⟩] ∧
    DenseBoard 1 [⟨1, "A", 1, 1⟩, ⟨2, "B", 0, 1⟩] ∧
    DenseBoard 1 [⟨1, "A", 1, 1⟩, ⟨2, "B", 2, 1⟩, ⟨3, "C", 0, 1⟩] :=
  ⟨by decide, by decide, by decide, by decide, by decide,
    (C1_density_preserved_swap_move.1 [⟨1, "A", 0, 1⟩, ⟨2, "B", 1, 1⟩] 1 2
      ⟨1, "A", 0, 1⟩ ⟨2, "B", 1, 1⟩ [⟨1, "A", 1, 1⟩, ⟨2, "B", 0, 1⟩]
      (by decide) (by decide) (by decide) (by decide) (by decide)) 1
      (by decide),
    (C1_density_preserved_swap_move.2
      [⟨1, "A", 0, 1⟩, ⟨2, "B", 1, 1⟩, ⟨3, "C", 2, 1⟩] 3 0 ⟨3, "C", 2, 1⟩
      [⟨1, "A", 1, 1⟩, ⟨2, "B", 2, 1⟩, ⟨3, "C", 0, 1⟩]
      (by decide) (by decide) (by decide) (by decide) (by decide)) 1
      (by decide)⟩
